import Mathlib

/-!
Shallow embedding of the meta-schedule slice of the repository:
argument-descriptor extraction (`src/meta_schedule/arg_info.cc`),
the compute-location mutator
(`src/meta_schedule/mutator/mutate_compute_location.cc`), and the
build-artifact cleanup callback
(`src/meta_schedule/measure_callback/remove_build_artifact.cc`),
together with proofs of the claimed properties.
-/

namespace TvmMeta

/-- JSON-like values exchanged with the serialization layer (the C++
side passes `ObjectRef` / `ffi::Any` values): strings, integers,
arrays, or a null value. -/
inductive JValue where
  | str (s : String)
  | int (n : Int)
  | arr (xs : List JValue)
  | nullv

/-- Element-type and shape descriptor of a tensor argument
(`TensorInfoNode` in `arg_info.cc`). Modelled from the spec: the
external `DLDataTypeToString` / `StringToDLDataType` pair (not part of
this slice) is inverse on constructible dtypes, so the dtype is kept
directly in its string form. -/
structure TensorInfo where
  dtype : String
  shape : List Int
deriving DecidableEq

/-- Polymorphic argument descriptor (`ArgInfo`); the only variant in
the source is the tensor variant, tagged "TENSOR". -/
inductive ArgInfo where
  | tensor (info : TensorInfo)
deriving DecidableEq

/-- Buffer bound to a PrimFunc parameter: only the fields read by
`ArgInfo::FromPrimFunc` (`buffer->dtype`, `buffer->shape`) are kept. -/
structure Buffer where
  dtype : String
  shape : List Int
deriving DecidableEq

/-- PrimFunc as read by `arg_info.cc`: the `tir::attr::kIsEntryFunc`
attribute (an optional integer, `HasNonzeroAttr` asks for a present
nonzero value), the parameter list (variables as numeric ids), and the
buffer map binding parameters to buffers (an association list, as
`func->buffer_map.Get` is a keyed lookup). -/
structure PrimFunc where
  entryAttr : Option Int
  params : List Nat
  buffer_map : List (Nat × Buffer)
deriving DecidableEq

/-- BaseFunc stored in a module: either a `tir::PrimFunc` or a
function of any other kind (relay/relax function etc.), which
`FindEntryFunc` must ignore. -/
inductive BaseFunc where
  | primFunc (f : PrimFunc)
  | otherFunc (id : Nat)
deriving DecidableEq

/-- IRModule as iterated by `FindEntryFunc`: the `functions` map as a
list of (GlobalVar name hint, BaseFunc) pairs in iteration order. -/
structure IRModule where
  functions : List (String × BaseFunc)
deriving DecidableEq

/-- Fatal `LOG(FATAL)` errors raised by the slice, with the payload
each message prints: the offending module for the entry-function
errors, the offending variable for unsupported arguments, the
offending JSON payload for parse errors. -/
inductive MSError where
  | noPrimFunc (m : IRModule)
  | multiplePrimFuncs (m : IRModule)
  | unsupportedArg (v : Nat)
  | parseError (payload : JValue)

/-- HasNonzeroAttr(kIsEntryFunc): the attribute is present and nonzero. -/
def hasNonzeroEntryAttr (f : PrimFunc) : Bool :=
  match f.entryAttr with
  | some v => v != 0
  | none => false

/-- Keyed lookup on the buffer map (`func->buffer_map.Get(arg)`). -/
def bufferMapGet : List (Nat × Buffer) → Nat → Option Buffer
  | [], _ => none
  | (k, b) :: rest, v => if k = v then some b else bufferMapGet rest v

/-- Loop body of `FindEntryFunc` (`arg_info.cc` lines 34-50): walks the
function map carrying `num_prim_func`, `main_func` and `last_func`;
`Sum.inl` is the early return on the first PrimFunc with a nonzero
`kIsEntryFunc` attribute, `Sum.inr` the accumulator state after the
loop. -/
def findEntryScan : List (String × BaseFunc) → Nat → Option PrimFunc → Option PrimFunc →
    PrimFunc ⊕ (Nat × Option PrimFunc × Option PrimFunc)
  | [], n, m, l => Sum.inr (n, m, l)
  | (name, BaseFunc.primFunc pf) :: rest, n, m, _l =>
    if hasNonzeroEntryAttr pf then Sum.inl pf
    else findEntryScan rest (n + 1) (if name = "main" then some pf else m) (some pf)
  | (_, BaseFunc.otherFunc _) :: rest, n, m, l => findEntryScan rest n m l

/-- FindEntryFunc (`arg_info.cc` lines 32-65): priority 1 the PrimFunc
flagged `kIsEntryFunc` (early return inside the loop), priority 2 a
PrimFunc named "main", priority 3 the only PrimFunc; zero PrimFuncs or
multiple un-flagged non-main PrimFuncs are fatal errors naming the
module. The final `none` branch of `last_func` is unreachable since
`num_prim_func = 1` forces it to be set. -/
def FindEntryFunc (mod : IRModule) : Except MSError PrimFunc :=
  match findEntryScan mod.functions 0 none none with
  | Sum.inl pf => Except.ok pf
  | Sum.inr (n, mainFunc, lastFunc) =>
    match mainFunc with
    | some pf => Except.ok pf
    | none =>
      if n = 0 then Except.error (MSError.noPrimFunc mod)
      else if n > 1 then Except.error (MSError.multiplePrimFuncs mod)
      else
        match lastFunc with
        | some pf => Except.ok pf
        | none => Except.error (MSError.noPrimFunc mod)

/-- Cast of a JSON item to an integer; failure models the C++ cast
throwing. -/
def castInt : JValue → Option Int
  | JValue.int n => some n
  | _ => none

/-- Cast of a JSON item list to an integer list, item by item. -/
def castIntList : List JValue → Option (List Int)
  | [] => some []
  | x :: rest =>
    match castInt x with
    | some n =>
      match castIntList rest with
      | some l => some (n :: l)
      | none => none
    | none => none

/-- AsIntArray (`support` helper used at `arg_info.cc` line 142): the
payload must be an array whose items all cast to integers. -/
def AsIntArray (j : JValue) : Option (List Int) :=
  match j with
  | JValue.arr xs => castIntList xs
  | _ => none

/-- TensorInfoNode::AsJSON (`arg_info.cc` lines 123-128): the tagged
array `["TENSOR", dtype, shape]`. -/
def TensorInfoAsJSON (t : TensorInfo) : JValue :=
  JValue.arr [JValue.str "TENSOR", JValue.str t.dtype, JValue.arr (t.shape.map JValue.int)]

/-- TensorInfo::FromJSON (`arg_info.cc` lines 130-151): the payload
must be an array of exactly 3 items; item 1 must cast to a string (the
dtype), item 2 to an integer array (the shape); any violation raises
the parse error carrying the whole payload. -/
def TensorInfoFromJSON (j : JValue) : Except MSError TensorInfo :=
  match j with
  | JValue.arr [_, x1, x2] =>
    match x1 with
    | JValue.str d =>
      match AsIntArray x2 with
      | some s => Except.ok { dtype := d, shape := s }
      | none => Except.error (MSError.parseError j)
    | _ => Except.error (MSError.parseError j)
  | _ => Except.error (MSError.parseError j)

/-- ArgInfo::FromJSON (`arg_info.cc` lines 68-87): the payload must be
an array with at least one item whose head casts to a string tag; the
tag "TENSOR" dispatches to `TensorInfoFromJSON`, any other tag (or a
malformed payload) raises the parse error carrying the payload. -/
def ArgInfoFromJSON (j : JValue) : Except MSError ArgInfo :=
  match j with
  | JValue.arr (x0 :: _) =>
    match x0 with
    | JValue.str tag =>
      if tag = "TENSOR" then
        match TensorInfoFromJSON j with
        | Except.ok t => Except.ok (ArgInfo.tensor t)
        | Except.error e => Except.error e
      else Except.error (MSError.parseError j)
    | _ => Except.error (MSError.parseError j)
  | _ => Except.error (MSError.parseError j)

/-- Parameter loop of `ArgInfo::FromPrimFunc` (`arg_info.cc` lines
93-101): each parameter bound to a buffer contributes a `TensorInfo`
with the buffer's dtype and shape, in parameter order; the first
parameter not bound to a buffer aborts with the unsupported-argument
error. -/
def fromParams (bm : List (Nat × Buffer)) : List Nat → Except MSError (List ArgInfo)
  | [] => Except.ok []
  | v :: rest =>
    match bufferMapGet bm v with
    | some b =>
      match fromParams bm rest with
      | Except.ok r => Except.ok (ArgInfo.tensor { dtype := b.dtype, shape := b.shape } :: r)
      | Except.error e => Except.error e
    | none => Except.error (MSError.unsupportedArg v)

/-- ArgInfo::FromPrimFunc (`arg_info.cc` lines 89-103). -/
def ArgInfoFromPrimFunc (f : PrimFunc) : Except MSError (List ArgInfo) :=
  fromParams f.buffer_map f.params

/-- Descriptor emitted for one parameter: the tensor info of the
buffer the parameter is bound to, if any. -/
def argDescOf (f : PrimFunc) (v : Nat) : Option ArgInfo :=
  match bufferMapGet f.buffer_map v with
  | some b => some (ArgInfo.tensor { dtype := b.dtype, shape := b.shape })
  | none => none

/-- ArgInfo::FromEntryFunc (`arg_info.cc` lines 105-112). Modelled
from the spec: `tir::transform::RemoveWeightLayoutRewriteBlock` is an
external transform outside this slice, taken here as the parameter
`preproc`; with `remove_preproc = true` the entry function is looked
up in the transformed module, otherwise in the module itself. -/
def ArgInfoFromEntryFunc (preproc : IRModule → IRModule) (mod : IRModule)
    (remove_preproc : Bool) : Except MSError (List ArgInfo) :=
  if remove_preproc then
    match FindEntryFunc (preproc mod) with
    | Except.ok f => ArgInfoFromPrimFunc f
    | Except.error e => Except.error e
  else
    match FindEntryFunc mod with
    | Except.ok f => ArgInfoFromPrimFunc f
    | Except.error e => Except.error e

/-- Instruction of a trace. Modelled from the spec: `tir::Instruction`
lives outside this slice; the mutator reads only the instruction kind,
its recorded decision (an integer for SampleComputeLocation), and
whether the instruction is a postprocessing step (used by
`remove_postproc`); inputs and attrs are not inspected by this slice. -/
structure Instruction where
  kind : String
  decision : Option Int
  postproc : Bool
deriving DecidableEq

/-- Trace as an ordered instruction list. Modelled from the spec:
`tir::Trace` lives outside this slice. -/
structure Trace where
  insts : List Instruction
deriving DecidableEq

/-- Replacement of the decision of the instruction at a given
position, all other instructions preserved. -/
def setDecisionAt : List Instruction → Nat → Int → List Instruction
  | [], _, _ => []
  | inst :: rest, 0, d => { inst with decision := some d } :: rest
  | inst :: rest, Nat.succ i, d => inst :: setDecisionAt rest i d

/-- Removal of the trailing postprocessing instructions of a list. -/
def dropTrailingPostproc (l : List Instruction) : List Instruction :=
  (l.reverse.dropWhile (fun i => i.postproc)).reverse

/-- Trace::WithDecision. Modelled from the spec: returns a new trace
in which the targeted instruction's decision is replaced, instructions
after it preserved structurally; with `remove_postproc` the trailing
postprocessing instructions are stripped. The instruction is
identified by its position in the trace. -/
def Trace.withDecision (t : Trace) (idx : Nat) (d : Int) (remove_postproc : Bool) : Trace :=
  let insts := setDecisionAt t.insts idx d
  { insts := if remove_postproc then dropTrailingPostproc insts else insts }

/-- Random state threaded through the mutator (`TRandState`). -/
abbrev TRandState := Nat

/-- ForkSeed. Modelled from the spec: the explicit fork operation on
the random state; returns the child seed and the advanced parent
state, both deterministic functions of the input state. -/
def forkSeed (s : TRandState) : TRandState × TRandState :=
  ((2 : Nat) * s + 1, (s : Nat) / 2)

/-- SampleInt. Modelled from the spec: a uniform draw from the
half-open range [lo, hi), consuming the random state
deterministically; returns the sample and the advanced state. -/
def sampleInt (s : TRandState) (lo hi : Nat) : Nat × TRandState :=
  (lo + (s : Nat) % (hi - lo), (s : Nat) / (hi - lo))

/-- Erasure of the first occurrence of the old decision from the
candidate location list (`std::find` + `erase` at
`mutate_compute_location.cc` lines 102-106); an absent value leaves
the list unchanged. -/
def eraseDecision : List Int → Int → List Int
  | [], _ => []
  | x :: rest, v => if x = v then rest else x :: eraseDecision rest v

/-- Candidate of the compute-location mutator: the position of the
SampleComputeLocation instruction in the trace and the remaining
candidate compute-at locations. -/
structure Candidate where
  idx : Nat
  locs : List Int
deriving DecidableEq

/-- Walk of `FindCandidates`' decision provider
(`mutate_compute_location.cc` lines 89-114) over the instruction list:
for every SampleComputeLocation instruction the full legal compute-at
location set is recomputed for the current program state (the external
`CollectComputeLocation` of the schedule engine, abstracted by the
`oracle` parameter indexed by instruction position, modelled from the
spec), the old decision is erased, and a candidate is recorded when at
least one location remains. -/
def findCandidatesAux (oracle : Nat → List Int) : List Instruction → Nat → List Candidate
  | [], _ => []
  | inst :: rest, i =>
    let tail := findCandidatesAux oracle rest (i + 1)
    if inst.kind = "SampleComputeLocation" then
      match inst.decision with
      | some old =>
        let locs := eraseDecision (oracle i) old
        if locs.isEmpty then tail else { idx := i, locs := locs } :: tail
      | none => tail
    else tail

/-- MutateComputeLocationNode::FindCandidates
(`mutate_compute_location.cc` lines 77-119). -/
def FindCandidates (oracle : Nat → List Int) (t : Trace) : List Candidate :=
  findCandidatesAux oracle t.insts 0

/-- MutateComputeLocationNode::Apply (`mutate_compute_location.cc`
lines 121-129): fork the seed for the replay schedule, collect the
candidates, return no mutation when there are none; otherwise sample
one candidate instruction, then one of its locations, and return
`WithDecision` with `remove_postproc = true`. The returned pair also
carries the final random state. -/
def MutateComputeLocationApply (oracle : Nat → List Int) (t : Trace) (s : TRandState) :
    Option Trace × TRandState :=
  match FindCandidates oracle t with
  | [] => (none, (forkSeed s).2)
  | c0 :: cs =>
    let r1 := sampleInt (forkSeed s).2 0 (c0 :: cs).length
    let c := (c0 :: cs).getD r1.1 c0
    let r2 := sampleInt r1.2 0 c.locs.length
    let loc := c.locs.getD r2.1 0
    (some (t.withDecision c.idx loc true), r2.2)

/-- BuilderResult (`builder.h` contract as used by the callback): an
optional artifact path and an optional error, exactly one populated in
well-formed results. -/
structure BuilderResult where
  artifact_path : Option String
  error : Option String
deriving DecidableEq

/-- RemoveBuildArtifactNode::Apply (`remove_build_artifact.cc` lines
28-39): walks the builder results and, for each result whose
`artifact_path` is defined, invokes the external removal capability
with that path; the returned list is the exact sequence of removal
invocations. -/
def RemoveBuildArtifactApply : List BuilderResult → List String
  | [] => []
  | r :: rest =>
    match r.artifact_path with
    | some p => p :: RemoveBuildArtifactApply rest
    | none => RemoveBuildArtifactApply rest

/-- Spec-side description: the first PrimFunc in iteration order
carrying a nonzero entry attribute. -/
def firstFlagged : List (String × BaseFunc) → Option PrimFunc
  | [] => none
  | (_, BaseFunc.primFunc f) :: rest =>
    if hasNonzeroEntryAttr f then some f else firstFlagged rest
  | (_, BaseFunc.otherFunc _) :: rest => firstFlagged rest

/-- Spec-side description: the last PrimFunc in iteration order
registered under the name "main" (the loop overwrites `main_func` on
every match). -/
def lastMain : List (String × BaseFunc) → Option PrimFunc
  | [] => none
  | (name, BaseFunc.primFunc f) :: rest =>
    match lastMain rest with
    | some g => some g
    | none => if name = "main" then some f else none
  | (_, BaseFunc.otherFunc _) :: rest => lastMain rest

/-- Spec-side description: the last PrimFunc in iteration order. -/
def lastPrim : List (String × BaseFunc) → Option PrimFunc
  | [] => none
  | (_, BaseFunc.primFunc f) :: rest =>
    match lastPrim rest with
    | some g => some g
    | none => some f
  | (_, BaseFunc.otherFunc _) :: rest => lastPrim rest

/-- Spec-side description: the PrimFuncs of a function list with their
names, in iteration order. -/
def primsOf : List (String × BaseFunc) → List (String × PrimFunc)
  | [] => []
  | (name, BaseFunc.primFunc f) :: rest => (name, f) :: primsOf rest
  | (_, BaseFunc.otherFunc _) :: rest => primsOf rest

/-- Last entry's PrimFunc of a named PrimFunc list. -/
def lastSnd : List (String × PrimFunc) → Option PrimFunc
  | [] => none
  | (_, f) :: rest =>
    match lastSnd rest with
    | some g => some g
    | none => some f

/-- Restriction of a function list to its PrimFunc entries. -/
def primOnly : List (String × BaseFunc) → List (String × BaseFunc)
  | [] => []
  | (name, BaseFunc.primFunc f) :: rest => (name, BaseFunc.primFunc f) :: primOnly rest
  | (_, BaseFunc.otherFunc _) :: rest => primOnly rest

/-- Replacement of the module named in an entry-function error. -/
def setErrMod (m : IRModule) : MSError → MSError
  | MSError.noPrimFunc _ => MSError.noPrimFunc m
  | MSError.multiplePrimFuncs _ => MSError.multiplePrimFuncs m
  | e => e

/-- Map over the error of an Except value. -/
def mapErr (g : MSError → MSError) : Except MSError PrimFunc → Except MSError PrimFunc
  | Except.ok a => Except.ok a
  | Except.error e => Except.error (g e)

/-- First-some choice between an option and a fallback. -/
def orD (o d : Option PrimFunc) : Option PrimFunc :=
  match o with
  | some x => some x
  | none => d

lemma findEntryScan_char (fns : List (String × BaseFunc)) :
    ∀ (n : Nat) (m l : Option PrimFunc),
      findEntryScan fns n m l =
        match firstFlagged fns with
        | some pf => Sum.inl pf
        | none =>
          Sum.inr (n + (primsOf fns).length, orD (lastMain fns) m, orD (lastPrim fns) l) := by
  induction fns with
  | nil =>
    intro n m l
    simp [findEntryScan, firstFlagged, primsOf, lastMain, lastPrim, orD]
  | cons hd rest ih =>
    intro n m l
    obtain ⟨name, f⟩ := hd
    cases f with
    | otherFunc k =>
      simpa [findEntryScan, firstFlagged, primsOf, lastMain, lastPrim] using ih n m l
    | primFunc pf =>
      by_cases hflag : hasNonzeroEntryAttr pf
      · simp [findEntryScan, firstFlagged, hflag]
      · simp only [findEntryScan, firstFlagged, primsOf, lastMain, lastPrim, hflag,
          if_neg, Bool.false_eq_true, ite_false]
        rw [ih]
        cases hf : firstFlagged rest with
        | some g => simp
        | none =>
          cases hm : lastMain rest with
          | some g =>
            cases hp : lastPrim rest with
            | some g2 => simp [orD]; omega
            | none => simp [orD]; omega
          | none =>
            cases hp : lastPrim rest with
            | some g2 => by_cases hname : name = "main" <;> simp [orD, hname] <;> omega
            | none => by_cases hname : name = "main" <;> simp [orD, hname] <;> omega

lemma lastPrim_eq_lastSnd (fns : List (String × BaseFunc)) :
    lastPrim fns = lastSnd (primsOf fns) := by
  induction fns with
  | nil => simp [lastPrim, primsOf, lastSnd]
  | cons hd rest ih =>
    obtain ⟨name, f⟩ := hd
    cases f with
    | otherFunc k => simpa [lastPrim, primsOf] using ih
    | primFunc pf => simp [lastPrim, primsOf, lastSnd, ih]

lemma FindEntryFunc_char (mod : IRModule) :
    FindEntryFunc mod =
      match firstFlagged mod.functions with
      | some pf => Except.ok pf
      | none =>
        match lastMain mod.functions with
        | some pf => Except.ok pf
        | none =>
          match primsOf mod.functions with
          | [] => Except.error (MSError.noPrimFunc mod)
          | [(_, pf)] => Except.ok pf
          | _ => Except.error (MSError.multiplePrimFuncs mod) := by
  unfold FindEntryFunc
  rw [findEntryScan_char]
  cases hf : firstFlagged mod.functions with
  | some pf => simp
  | none =>
    cases hm : lastMain mod.functions with
    | some pf => simp [orD]
    | none =>
      cases hp : primsOf mod.functions with
      | nil =>
        simp [orD]
      | cons x xs =>
        obtain ⟨nx, fx⟩ := x
        cases xs with
        | nil =>
          have hlast : lastPrim mod.functions = some fx := by
            rw [lastPrim_eq_lastSnd, hp]; rfl
          simp [orD, hlast]
        | cons y ys =>
          obtain ⟨ny, fy⟩ := y
          have hlen : (primsOf mod.functions).length = ys.length + 2 := by
            rw [hp]; simp
          simp [orD, hlen]

lemma firstFlagged_flag (fns : List (String × BaseFunc)) (pf : PrimFunc) :
    firstFlagged fns = some pf → hasNonzeroEntryAttr pf = true := by
  induction fns with
  | nil => intro h; simp [firstFlagged] at h
  | cons hd rest ih =>
    obtain ⟨name, f⟩ := hd
    cases f with
    | otherFunc k => intro h; exact ih (by simpa [firstFlagged] using h)
    | primFunc g =>
      by_cases hflag : hasNonzeroEntryAttr g
      · intro h
        simp [firstFlagged, hflag] at h
        subst h; exact hflag
      · intro h
        exact ih (by simpa [firstFlagged, hflag] using h)

lemma firstFlagged_isSome_of_mem (fns : List (String × BaseFunc)) (name : String)
    (pf : PrimFunc) (hmem : (name, BaseFunc.primFunc pf) ∈ fns)
    (hflag : hasNonzeroEntryAttr pf = true) : ∃ g, firstFlagged fns = some g := by
  induction fns with
  | nil => simp at hmem
  | cons hd rest ih =>
    obtain ⟨nh, fh⟩ := hd
    rcases List.mem_cons.mp hmem with heq | hmem2
    · obtain ⟨h1, h2⟩ := Prod.mk.injEq .. ▸ heq
      subst h1
      cases h2
      exact ⟨pf, by simp [firstFlagged, hflag]⟩
    · cases fh with
      | otherFunc k =>
        obtain ⟨g, hg⟩ := ih hmem2
        exact ⟨g, by simpa [firstFlagged] using hg⟩
      | primFunc g2 =>
        by_cases hflag2 : hasNonzeroEntryAttr g2
        · exact ⟨g2, by simp [firstFlagged, hflag2]⟩
        · obtain ⟨g, hg⟩ := ih hmem2
          exact ⟨g, by simpa [firstFlagged, hflag2] using hg⟩

lemma lastMain_mem (fns : List (String × BaseFunc)) (pf : PrimFunc) :
    lastMain fns = some pf → ("main", BaseFunc.primFunc pf) ∈ fns := by
  induction fns with
  | nil => intro h; simp [lastMain] at h
  | cons hd rest ih =>
    obtain ⟨name, f⟩ := hd
    cases f with
    | otherFunc k =>
      intro h
      exact List.mem_cons_of_mem _ (ih (by simpa [lastMain] using h))
    | primFunc g =>
      intro h
      simp only [lastMain] at h
      cases hm : lastMain rest with
      | some g2 =>
        rw [hm] at h
        cases h
        exact List.mem_cons_of_mem _ (ih hm)
      | none =>
        rw [hm] at h
        by_cases hname : name = "main"
        · simp [hname] at h
          subst hname
          cases h
          exact List.mem_cons_self _ _
        · simp [hname] at h

lemma firstFlagged_mem_prims (fns : List (String × BaseFunc)) (pf : PrimFunc) :
    firstFlagged fns = some pf → ∃ nm, (nm, pf) ∈ primsOf fns := by
  induction fns with
  | nil => intro h; simp [firstFlagged] at h
  | cons hd rest ih =>
    obtain ⟨name, f⟩ := hd
    cases f with
    | otherFunc k =>
      intro h
      obtain ⟨nm, hnm⟩ := ih (by simpa [firstFlagged] using h)
      exact ⟨nm, by simpa [primsOf] using hnm⟩
    | primFunc g =>
      by_cases hflag : hasNonzeroEntryAttr g
      · intro h
        simp [firstFlagged, hflag] at h
        subst h
        exact ⟨name, by simp [primsOf]⟩
      · intro h
        obtain ⟨nm, hnm⟩ := ih (by simpa [firstFlagged, hflag] using h)
        exact ⟨nm, by simp [primsOf, hnm]⟩

lemma lastMain_mem_prims (fns : List (String × BaseFunc)) (pf : PrimFunc) :
    lastMain fns = some pf → ("main", pf) ∈ primsOf fns := by
  induction fns with
  | nil => intro h; simp [lastMain] at h
  | cons hd rest ih =>
    obtain ⟨name, f⟩ := hd
    cases f with
    | otherFunc k =>
      intro h
      simpa [primsOf] using ih (by simpa [lastMain] using h)
    | primFunc g =>
      intro h
      simp only [lastMain] at h
      cases hm : lastMain rest with
      | some g2 =>
        rw [hm] at h
        cases h
        simp [primsOf, ih hm]
      | none =>
        rw [hm] at h
        by_cases hname : name = "main"
        · simp [hname] at h
          subst hname
          cases h
          simp [primsOf]
        · simp [hname] at h

lemma firstFlagged_primOnly (fns : List (String × BaseFunc)) :
    firstFlagged (primOnly fns) = firstFlagged fns := by
  induction fns with
  | nil => simp [primOnly]
  | cons hd rest ih =>
    obtain ⟨name, f⟩ := hd
    cases f with
    | otherFunc k => simpa [primOnly, firstFlagged] using ih
    | primFunc g => simp [primOnly, firstFlagged, ih]

lemma lastMain_primOnly (fns : List (String × BaseFunc)) :
    lastMain (primOnly fns) = lastMain fns := by
  induction fns with
  | nil => simp [primOnly]
  | cons hd rest ih =>
    obtain ⟨name, f⟩ := hd
    cases f with
    | otherFunc k => simpa [primOnly, lastMain] using ih
    | primFunc g => simp [primOnly, lastMain, ih]

lemma primsOf_primOnly (fns : List (String × BaseFunc)) :
    primsOf (primOnly fns) = primsOf fns := by
  induction fns with
  | nil => simp [primOnly]
  | cons hd rest ih =>
    obtain ⟨name, f⟩ := hd
    cases f with
    | otherFunc k => simpa [primOnly, primsOf] using ih
    | primFunc g => simp [primOnly, primsOf, ih]

/-- C1: FindEntryFunc resolves the tuning entry function by priority:
whenever some PrimFunc carries a nonzero entry-function attribute, a
so-flagged PrimFunc is returned (namely the first one in iteration
order); otherwise a PrimFunc registered under the name "main" is
returned when one exists; otherwise the sole PrimFunc is returned when
the module has exactly one; in particular a module with exactly one
function, named "main" and carrying no entry flag, resolves to that
function. -/
theorem findEntryFunc_priority (mod : IRModule) :
    (∀ name pf, (name, BaseFunc.primFunc pf) ∈ mod.functions →
      hasNonzeroEntryAttr pf = true →
      ∃ g, firstFlagged mod.functions = some g ∧ hasNonzeroEntryAttr g = true ∧
        FindEntryFunc mod = Except.ok g)
  ∧ (∀ pf, firstFlagged mod.functions = some pf → FindEntryFunc mod = Except.ok pf)
  ∧ (firstFlagged mod.functions = none →
      ∀ pf, lastMain mod.functions = some pf →
        ("main", BaseFunc.primFunc pf) ∈ mod.functions ∧ FindEntryFunc mod = Except.ok pf)
  ∧ (firstFlagged mod.functions = none → lastMain mod.functions = none →
      ∀ name pf, primsOf mod.functions = [(name, pf)] → FindEntryFunc mod = Except.ok pf)
  ∧ (∀ pf, hasNonzeroEntryAttr pf = false →
      FindEntryFunc { functions := [("main", BaseFunc.primFunc pf)] } = Except.ok pf) := by
  refine ⟨?_, ?_, ?_, ?_, ?_⟩
  · intro name pf hmem hflag
    obtain ⟨g, hg⟩ := firstFlagged_isSome_of_mem mod.functions name pf hmem hflag
    refine ⟨g, hg, firstFlagged_flag mod.functions g hg, ?_⟩
    rw [FindEntryFunc_char, hg]
  · intro pf h
    rw [FindEntryFunc_char, h]
  · intro hf pf hm
    refine ⟨lastMain_mem mod.functions pf hm, ?_⟩
    rw [FindEntryFunc_char, hf, hm]
  · intro hf hm name pf hp
    rw [FindEntryFunc_char, hf, hm, hp]
  · intro pf hflag
    simp [FindEntryFunc, findEntryScan, hflag]

/-- C1 witness: concrete modules exercising each priority tier: a
flagged PrimFunc wins over a "main" PrimFunc; an unflagged "main"
PrimFunc is returned; the sole PrimFunc is returned; the single
"main"-named unflagged PrimFunc is returned. -/
theorem findEntryFunc_priority_witness :
    (∃ g, firstFlagged [("main", BaseFunc.primFunc ⟨none, [], []⟩),
        ("e", BaseFunc.primFunc ⟨some 1, [], []⟩)] = some g ∧
        hasNonzeroEntryAttr g = true ∧
        FindEntryFunc { functions := [("main", BaseFunc.primFunc ⟨none, [], []⟩),
          ("e", BaseFunc.primFunc ⟨some 1, [], []⟩)] } = Except.ok g)
  ∧ (("main", BaseFunc.primFunc ⟨none, [], []⟩) ∈
        ({ functions := [("a", BaseFunc.primFunc ⟨none, [7], []⟩),
          ("main", BaseFunc.primFunc ⟨none, [], []⟩)] } : IRModule).functions ∧
      FindEntryFunc { functions := [("a", BaseFunc.primFunc ⟨none, [7], []⟩),
        ("main", BaseFunc.primFunc ⟨none, [], []⟩)] } = Except.ok ⟨none, [], []⟩)
  ∧ FindEntryFunc { functions := [("solo", BaseFunc.primFunc ⟨none, [3], []⟩)] } =
      Except.ok ⟨none, [3], []⟩
  ∧ FindEntryFunc { functions := [("main", BaseFunc.primFunc ⟨none, [], []⟩)] } =
      Except.ok ⟨none, [], []⟩ := by
  refine ⟨?_, ?_, ?_, ?_⟩
  · exact (findEntryFunc_priority ⟨[("main", BaseFunc.primFunc ⟨none, [], []⟩),
      ("e", BaseFunc.primFunc ⟨some 1, [], []⟩)]⟩).1 "e" ⟨some 1, [], []⟩
      (by simp) (by rfl)
  · exact (findEntryFunc_priority ⟨[("a", BaseFunc.primFunc ⟨none, [7], []⟩),
      ("main", BaseFunc.primFunc ⟨none, [], []⟩)]⟩).2.2.1 (by rfl) ⟨none, [], []⟩ (by rfl)
  · exact (findEntryFunc_priority ⟨[("solo", BaseFunc.primFunc ⟨none, [3], []⟩)]⟩).2.2.2.1
      (by rfl) (by rfl) "solo" ⟨none, [3], []⟩ (by rfl)
  · exact (findEntryFunc_priority ⟨[("main", BaseFunc.primFunc ⟨none, [], []⟩)]⟩).2.2.2.2
      ⟨none, [], []⟩ (by rfl)

/-- C2 counterexample: a module with two functions, neither carrying
an entry-function flag, on which FindEntryFunc does NOT fail: one of
the two PrimFuncs is named "main", so it is returned. -/
theorem findEntryFunc_two_untagged_counterexample :
    FindEntryFunc { functions := [("main", BaseFunc.primFunc ⟨none, [], []⟩),
        ("other", BaseFunc.primFunc ⟨none, [1], []⟩)] } =
      Except.ok ⟨none, [], []⟩ := by
  rfl

/-- C2 amended: for every module whose functions are exactly two
PrimFuncs, neither carrying a nonzero entry-function attribute and
neither named "main", FindEntryFunc (and hence ArgInfo::FromEntryFunc)
fails with the multiple-PrimFuncs configuration error naming the
offending module, rather than returning a function. -/
theorem findEntryFunc_two_untagged_amended (n1 n2 : String) (f1 f2 : PrimFunc)
    (pre : IRModule → IRModule)
    (h1 : hasNonzeroEntryAttr f1 = false) (h2 : hasNonzeroEntryAttr f2 = false)
    (hm1 : n1 ≠ "main") (hm2 : n2 ≠ "main") :
    FindEntryFunc { functions := [(n1, BaseFunc.primFunc f1), (n2, BaseFunc.primFunc f2)] } =
      Except.error (MSError.multiplePrimFuncs
        { functions := [(n1, BaseFunc.primFunc f1), (n2, BaseFunc.primFunc f2)] })
  ∧ ArgInfoFromEntryFunc pre
        { functions := [(n1, BaseFunc.primFunc f1), (n2, BaseFunc.primFunc f2)] } false =
      Except.error (MSError.multiplePrimFuncs
        { functions := [(n1, BaseFunc.primFunc f1), (n2, BaseFunc.primFunc f2)] }) := by
  have hfind : FindEntryFunc
      { functions := [(n1, BaseFunc.primFunc f1), (n2, BaseFunc.primFunc f2)] } =
      Except.error (MSError.multiplePrimFuncs
        { functions := [(n1, BaseFunc.primFunc f1), (n2, BaseFunc.primFunc f2)] }) := by
    simp [FindEntryFunc, findEntryScan, h1, h2, hm1, hm2]
  exact ⟨hfind, by simp [ArgInfoFromEntryFunc, hfind]⟩

/-- C2 amended witness: two concrete unflagged non-"main" PrimFuncs. -/
theorem findEntryFunc_two_untagged_amended_witness :
    FindEntryFunc { functions := [("a", BaseFunc.primFunc ⟨none, [], []⟩),
        ("b", BaseFunc.primFunc ⟨none, [1], []⟩)] } =
      Except.error (MSError.multiplePrimFuncs
        { functions := [("a", BaseFunc.primFunc ⟨none, [], []⟩),
          ("b", BaseFunc.primFunc ⟨none, [1], []⟩)] })
  ∧ ArgInfoFromEntryFunc (fun m => m)
        { functions := [("a", BaseFunc.primFunc ⟨none, [], []⟩),
          ("b", BaseFunc.primFunc ⟨none, [1], []⟩)] } false =
      Except.error (MSError.multiplePrimFuncs
        { functions := [("a", BaseFunc.primFunc ⟨none, [], []⟩),
          ("b", BaseFunc.primFunc ⟨none, [1], []⟩)] }) :=
  findEntryFunc_two_untagged_amended "a" "b" ⟨none, [], []⟩ ⟨none, [1], []⟩ (fun m => m)
    (by rfl) (by rfl) (by decide) (by decide)

/-- C10: FindEntryFunc considers only PrimFuncs: its result on a
module agrees with its result on the module restricted to PrimFunc
entries, up to the module named in the error payload; and a module
whose PrimFunc entries are exactly one function returns that function
regardless of coexisting non-PrimFunc functions. -/
theorem findEntryFunc_ignores_non_prim (mod : IRModule) :
    FindEntryFunc mod =
      mapErr (setErrMod mod) (FindEntryFunc { functions := primOnly mod.functions })
  ∧ (∀ name pf, primsOf mod.functions = [(name, pf)] → FindEntryFunc mod = Except.ok pf) := by
  constructor
  · rw [FindEntryFunc_char, FindEntryFunc_char]
    simp only [firstFlagged_primOnly, lastMain_primOnly, primsOf_primOnly]
    cases hf : firstFlagged mod.functions with
    | some pf => simp [mapErr]
    | none =>
      cases hm : lastMain mod.functions with
      | some pf => simp [mapErr]
      | none =>
        cases hp : primsOf mod.functions with
        | nil => simp [mapErr, setErrMod]
        | cons x xs =>
          obtain ⟨nx, fx⟩ := x
          cases xs with
          | nil => simp [mapErr]
          | cons y ys => obtain ⟨ny, fy⟩ := y; simp [mapErr, setErrMod]
  · intro name pf hp
    cases hf : firstFlagged mod.functions with
    | some g =>
      obtain ⟨nm, hnm⟩ := firstFlagged_mem_prims mod.functions g hf
      rw [hp] at hnm
      simp at hnm
      rw [FindEntryFunc_char, hf, hnm.2]
    | none =>
      cases hm : lastMain mod.functions with
      | some g =>
        have hnm := lastMain_mem_prims mod.functions g hm
        rw [hp] at hnm
        simp at hnm
        rw [FindEntryFunc_char, hf, hm, hnm.2]
      | none =>
        rw [FindEntryFunc_char, hf, hm, hp]

/-- C10 witness: a single PrimFunc coexisting with two non-PrimFunc
functions is returned without error. -/
theorem findEntryFunc_ignores_non_prim_witness :
    FindEntryFunc { functions := [("x", BaseFunc.otherFunc 5),
        ("f", BaseFunc.primFunc ⟨none, [2], []⟩), ("y", BaseFunc.otherFunc 7)] } =
      Except.ok ⟨none, [2], []⟩ :=
  (findEntryFunc_ignores_non_prim ⟨[("x", BaseFunc.otherFunc 5),
      ("f", BaseFunc.primFunc ⟨none, [2], []⟩), ("y", BaseFunc.otherFunc 7)]⟩).2
    "f" ⟨none, [2], []⟩ (by rfl)

lemma castIntList_map_int (s : List Int) : castIntList (s.map JValue.int) = some s := by
  induction s with
  | nil => rfl
  | cons x rest ih => simp [castIntList, castInt, ih]

/-- C3: deserializing the serialization of every constructible
TensorInfo round-trips to an equal value, both through
TensorInfo::FromJSON and through the ArgInfo::FromJSON dispatcher; in
particular the float32 [1,224,224,3] descriptor serializes to the
tagged array ["TENSOR", "float32", [1,224,224,3]] and deserializes
back to an equal value. -/
theorem tensorInfo_roundtrip (t : TensorInfo) :
    TensorInfoFromJSON (TensorInfoAsJSON t) = Except.ok t
  ∧ ArgInfoFromJSON (TensorInfoAsJSON t) = Except.ok (ArgInfo.tensor t)
  ∧ TensorInfoAsJSON { dtype := "float32", shape := [1, 224, 224, 3] } =
      JValue.arr [JValue.str "TENSOR", JValue.str "float32",
        JValue.arr [JValue.int 1, JValue.int 224, JValue.int 224, JValue.int 3]]
  ∧ ArgInfoFromJSON (JValue.arr [JValue.str "TENSOR", JValue.str "float32",
        JValue.arr [JValue.int 1, JValue.int 224, JValue.int 224, JValue.int 3]]) =
      Except.ok (ArgInfo.tensor { dtype := "float32", shape := [1, 224, 224, 3] }) := by
  obtain ⟨d, s⟩ := t
  have h1 : TensorInfoFromJSON (TensorInfoAsJSON ⟨d, s⟩) = Except.ok ⟨d, s⟩ := by
    simp [TensorInfoAsJSON, TensorInfoFromJSON, AsIntArray, castIntList_map_int]
  refine ⟨h1, ?_, rfl, rfl⟩
  simp [ArgInfoFromJSON, TensorInfoAsJSON] at h1 ⊢
  simp [h1]

/-- C4: ArgInfo::FromJSON validates the serialized form: a payload
that is not an array, or an array whose first element is not the
string "TENSOR" (the only known variant tag), or a tensor-tagged array
whose arity is not exactly 3, fails with the parse error carrying the
offending payload and never yields an ArgInfo. -/
theorem argInfoFromJSON_validates (j : JValue) :
    ((∀ xs, j ≠ JValue.arr xs) → ArgInfoFromJSON j = Except.error (MSError.parseError j))
  ∧ (∀ xs, j = JValue.arr xs → xs.get? 0 ≠ some (JValue.str "TENSOR") →
      ArgInfoFromJSON j = Except.error (MSError.parseError j))
  ∧ (∀ xs, j = JValue.arr xs → xs.get? 0 = some (JValue.str "TENSOR") → xs.length ≠ 3 →
      ArgInfoFromJSON j = Except.error (MSError.parseError j)) := by
  refine ⟨?_, ?_, ?_⟩
  · intro h
    cases j with
    | str s => rfl
    | int n => rfl
    | arr xs => exact absurd rfl (h xs)
    | nullv => rfl
  · intro xs heq hne
    subst heq
    cases xs with
    | nil => rfl
    | cons x0 rest =>
      cases x0 with
      | str tag =>
        by_cases htag : tag = "TENSOR"
        · subst htag
          exact absurd rfl hne
        · simp [ArgInfoFromJSON, htag]
      | int n => rfl
      | arr ys => rfl
      | nullv => rfl
  · intro xs heq hget hlen
    subst heq
    cases xs with
    | nil => simp at hget
    | cons x0 rest =>
      have hx0 : x0 = JValue.str "TENSOR" := by
        simpa using hget
      subst hx0
      match rest, hlen with
      | [], _ => rfl
      | [a], _ =>
        cases a with
        | str s => rfl
        | int n => rfl
        | arr ys => rfl
        | nullv => rfl
      | [a, b], hlen => simp at hlen
      | a :: b :: c :: tail, _ =>
        cases a with
        | str s => rfl
        | int n => rfl
        | arr ys => rfl
        | nullv => rfl

/-- C4 witness: a non-array payload, an array with an unknown tag, and
a tensor-tagged array of arity 2 each fail with the parse error
carrying the payload. -/
theorem argInfoFromJSON_validates_witness :
    ArgInfoFromJSON (JValue.str "x") = Except.error (MSError.parseError (JValue.str "x"))
  ∧ ArgInfoFromJSON (JValue.arr [JValue.str "MATRIX"]) =
      Except.error (MSError.parseError (JValue.arr [JValue.str "MATRIX"]))
  ∧ ArgInfoFromJSON (JValue.arr [JValue.str "TENSOR", JValue.str "float32"]) =
      Except.error (MSError.parseError
        (JValue.arr [JValue.str "TENSOR", JValue.str "float32"])) := by
  refine ⟨?_, ?_, ?_⟩
  · exact (argInfoFromJSON_validates (JValue.str "x")).1
      (fun xs h => JValue.noConfusion h)
  · exact (argInfoFromJSON_validates (JValue.arr [JValue.str "MATRIX"])).2.1
      [JValue.str "MATRIX"] rfl
      (fun h => absurd (JValue.str.inj (Option.some.inj h)) (by decide))
  · exact (argInfoFromJSON_validates
      (JValue.arr [JValue.str "TENSOR", JValue.str "float32"])).2.2
      [JValue.str "TENSOR", JValue.str "float32"] rfl rfl (by decide)

lemma fromParams_ok (bm : List (Nat × Buffer)) :
    ∀ ps : List Nat, (∀ v ∈ ps, (bufferMapGet bm v).isSome = true) →
      ∃ r, fromParams bm ps = Except.ok r ∧ r.length = ps.length ∧
        ∀ i : Nat, r.get? i = (ps.get? i).bind (fun v =>
          match bufferMapGet bm v with
          | some b => some (ArgInfo.tensor { dtype := b.dtype, shape := b.shape })
          | none => none) := by
  intro ps
  induction ps with
  | nil =>
    intro _
    exact ⟨[], rfl, rfl, fun i => by simp⟩
  | cons v rest ih =>
    intro hall
    have hv : (bufferMapGet bm v).isSome = true := hall v (List.mem_cons_self v rest)
    obtain ⟨b, hb⟩ := Option.isSome_iff_exists.mp hv
    obtain ⟨r, hr, hlen, hget⟩ := ih (fun w hw => hall w (List.mem_cons_of_mem v hw))
    refine ⟨ArgInfo.tensor { dtype := b.dtype, shape := b.shape } :: r, ?_, ?_, ?_⟩
    · simp [fromParams, hb, hr]
    · simp [hlen]
    · intro i
      cases i with
      | zero => simp [hb]
      | succ k => simpa using hget k

lemma fromParams_err (bm : List (Nat × Buffer)) :
    ∀ ps : List Nat, (∃ v, v ∈ ps ∧ bufferMapGet bm v = none) →
      ∃ v, v ∈ ps ∧ bufferMapGet bm v = none ∧
        fromParams bm ps = Except.error (MSError.unsupportedArg v) := by
  intro ps
  induction ps with
  | nil =>
    intro h
    obtain ⟨v, hv, _⟩ := h
    simp at hv
  | cons w rest ih =>
    intro h
    cases hw : bufferMapGet bm w with
    | none => exact ⟨w, List.mem_cons_self w rest, hw, by simp [fromParams, hw]⟩
    | some b =>
      obtain ⟨v, hv, hvn⟩ := h
      have hvrest : v ∈ rest := by
        rcases List.mem_cons.mp hv with heq | hmem
        · subst heq; rw [hw] at hvn; cases hvn
        · exact hmem
      obtain ⟨u, hu, hun, herr⟩ := ih ⟨v, hvrest, hvn⟩
      exact ⟨u, List.mem_cons_of_mem w hu, hun, by simp [fromParams, hw, herr]⟩

/-- C5: ArgInfo::FromPrimFunc returns one TensorInfo per parameter in
parameter order, drawn from the buffer the parameter is bound to (so
under the precondition that every parameter is buffer-bound the result
length equals the parameter count); a parameter not bound to a buffer
fails with the unsupported-argument error. -/
theorem argInfoFromPrimFunc_desc (f : PrimFunc) :
    ((∀ v ∈ f.params, (bufferMapGet f.buffer_map v).isSome = true) →
      ∃ r, ArgInfoFromPrimFunc f = Except.ok r ∧ r.length = f.params.length ∧
        ∀ i : Nat, r.get? i = (f.params.get? i).bind (argDescOf f))
  ∧ ((∃ v, v ∈ f.params ∧ bufferMapGet f.buffer_map v = none) →
      ∃ v, v ∈ f.params ∧ bufferMapGet f.buffer_map v = none ∧
        ArgInfoFromPrimFunc f = Except.error (MSError.unsupportedArg v)) := by
  constructor
  · intro hall
    obtain ⟨r, hr, hlen, hget⟩ := fromParams_ok f.buffer_map f.params hall
    exact ⟨r, hr, hlen, fun i => by simpa [argDescOf] using hget i⟩
  · intro h
    obtain ⟨v, hv, hvn, herr⟩ := fromParams_err f.buffer_map f.params h
    exact ⟨v, hv, hvn, herr⟩

/-- C5 witness: a PrimFunc with two buffer-bound parameters yields the
two descriptors in order; a PrimFunc with an unbound parameter fails
with the unsupported-argument error. -/
theorem argInfoFromPrimFunc_desc_witness :
    (∃ r, ArgInfoFromPrimFunc ⟨none, [1, 2],
        [(1, ⟨"float32", [4]⟩), (2, ⟨"int8", [8, 8]⟩)]⟩ = Except.ok r ∧
      r.length = ([1, 2] : List Nat).length ∧
      ∀ i : Nat, r.get? i = (([1, 2] : List Nat).get? i).bind
        (argDescOf ⟨none, [1, 2], [(1, ⟨"float32", [4]⟩), (2, ⟨"int8", [8, 8]⟩)]⟩))
  ∧ (∃ v, v ∈ (⟨none, [5], []⟩ : PrimFunc).params ∧
      bufferMapGet [] v = none ∧
      ArgInfoFromPrimFunc ⟨none, [5], []⟩ =
        Except.error (MSError.unsupportedArg v)) := by
  constructor
  · exact (argInfoFromPrimFunc_desc ⟨none, [1, 2],
      [(1, ⟨"float32", [4]⟩), (2, ⟨"int8", [8, 8]⟩)]⟩).1 (by decide)
  · exact (argInfoFromPrimFunc_desc ⟨none, [5], []⟩).2 ⟨5, by decide, rfl⟩

lemma getD_mem_or_eq {α : Type} (l : List α) (n : Nat) (d : α) :
    l.getD n d ∈ l ∨ l.getD n d = d := by
  induction l generalizing n with
  | nil => right; simp
  | cons a rest ih =>
    cases n with
    | zero => left; simp
    | succ k =>
      rcases ih k with hm | he
      · left; simpa using List.mem_cons_of_mem a hm
      · right; simpa using he

lemma getD_mem_of_lt {α : Type} (l : List α) (n : Nat) (d : α) (h : n < l.length) :
    l.getD n d ∈ l := by
  induction l generalizing n with
  | nil => simp at h
  | cons a rest ih =>
    cases n with
    | zero => simp
    | succ k =>
      have hk : k < rest.length := by simpa using h
      simpa using List.mem_cons_of_mem a (ih k hk)

lemma mem_eraseDecision (xs : List Int) (v x : Int) (h : x ∈ eraseDecision xs v) : x ∈ xs := by
  induction xs with
  | nil => simp [eraseDecision] at h
  | cons a rest ih =>
    by_cases ha : a = v
    · simp [eraseDecision, ha] at h
      exact List.mem_cons_of_mem a h
    · simp [eraseDecision, ha] at h
      rcases h with he | hm
      · simp [he]
      · exact List.mem_cons_of_mem a (ih hm)

lemma eraseDecision_nodup_ne (xs : List Int) (v x : Int) (hnd : xs.Nodup)
    (h : x ∈ eraseDecision xs v) : x ≠ v := by
  induction xs with
  | nil => simp [eraseDecision] at h
  | cons a rest ih =>
    obtain ⟨hna, hndr⟩ := List.nodup_cons.mp hnd
    by_cases ha : a = v
    · subst ha
      simp [eraseDecision] at h
      intro hxv
      exact hna (hxv ▸ h)
    · simp [eraseDecision, ha] at h
      rcases h with he | hm
      · subst he; exact ha
      · exact ih hndr hm

lemma findCandidatesAux_sound (oracle : Nat → List Int) :
    ∀ (insts : List Instruction) (i : Nat) (c : Candidate),
      c ∈ findCandidatesAux oracle insts i →
      ∃ k inst old, insts.get? k = some inst ∧ c.idx = i + k ∧
        inst.kind = "SampleComputeLocation" ∧ inst.decision = some old ∧
        c.locs = eraseDecision (oracle c.idx) old ∧ c.locs ≠ [] := by
  intro insts
  induction insts with
  | nil => intro i c h; simp [findCandidatesAux] at h
  | cons inst rest ih =>
    intro i c h
    by_cases hkind : inst.kind = "SampleComputeLocation"
    · cases hdec : inst.decision with
      | none =>
        simp only [findCandidatesAux, hkind, hdec, if_true, reduceIte] at h
        obtain ⟨k, inst2, old, h1, h2, h3, h4, h5, h6⟩ := ih (i + 1) c h
        exact ⟨k + 1, inst2, old, by simpa using h1, by omega, h3, h4, h5, h6⟩
      | some old =>
        by_cases hemp : (eraseDecision (oracle i) old).isEmpty
        · simp only [findCandidatesAux, hkind, hdec, hemp, if_true, reduceIte] at h
          obtain ⟨k, inst2, old2, h1, h2, h3, h4, h5, h6⟩ := ih (i + 1) c h
          exact ⟨k + 1, inst2, old2, by simpa using h1, by omega, h3, h4, h5, h6⟩
        · simp only [findCandidatesAux, hkind, hdec, hemp, if_true, reduceIte,
            Bool.false_eq_true, if_false, List.mem_cons] at h
          rcases h with he | hm
          · subst he
            refine ⟨0, inst, old, by simp, by simp, hkind, hdec, by simp, ?_⟩
            intro hn
            have hn2 : eraseDecision (oracle i) old = [] := hn
            rw [hn2] at hemp
            exact hemp rfl
          · obtain ⟨k, inst2, old2, h1, h2, h3, h4, h5, h6⟩ := ih (i + 1) c hm
            exact ⟨k + 1, inst2, old2, by simpa using h1, by omega, h3, h4, h5, h6⟩
    · simp only [findCandidatesAux, hkind, Bool.false_eq_true, if_false, reduceIte] at h
      obtain ⟨k, inst2, old, h1, h2, h3, h4, h5, h6⟩ := ih (i + 1) c h
      exact ⟨k + 1, inst2, old, by simpa using h1, by omega, h3, h4, h5, h6⟩

lemma findCandidatesAux_nil (oracle : Nat → List Int) :
    ∀ (insts : List Instruction) (i : Nat),
      (∀ k inst old, insts.get? k = some inst →
        inst.kind = "SampleComputeLocation" → inst.decision = some old →
        eraseDecision (oracle (i + k)) old = []) →
      findCandidatesAux oracle insts i = [] := by
  intro insts
  induction insts with
  | nil => intro i _; simp [findCandidatesAux]
  | cons inst rest ih =>
    intro i h
    have htail : findCandidatesAux oracle rest (i + 1) = [] := by
      refine ih (i + 1) ?_
      intro k inst2 old h1 h2 h3
      have := h (k + 1) inst2 old (by simpa using h1) h2 h3
      simpa [Nat.add_assoc, Nat.add_comm 1 k] using this
    by_cases hkind : inst.kind = "SampleComputeLocation"
    · cases hdec : inst.decision with
      | none => simp [findCandidatesAux, hkind, hdec, htail]
      | some old =>
        have hemp : eraseDecision (oracle i) old = [] := by
          have := h 0 inst old (by simp) hkind hdec
          simpa using this
        simp [findCandidatesAux, hkind, hdec, hemp, htail]
    · simp [findCandidatesAux, hkind, htail]

/-- C6: when no SampleComputeLocation instruction of the trace has a
legal compute-at location other than its current decision (the
recomputed legal set minus the current decision is empty everywhere,
which covers a trace without any SampleComputeLocation instruction),
MutateComputeLocation::Apply returns no mutation: an empty optional,
not an error and not a trace. -/
theorem mutateComputeLocation_no_mutation (oracle : Nat → List Int) (t : Trace)
    (s : TRandState)
    (h : ∀ i inst old, t.insts.get? i = some inst →
      inst.kind = "SampleComputeLocation" → inst.decision = some old →
      eraseDecision (oracle i) old = []) :
    (MutateComputeLocationApply oracle t s).1 = none := by
  have hc : FindCandidates oracle t = [] := by
    refine findCandidatesAux_nil oracle t.insts 0 ?_
    intro k inst old h1 h2 h3
    simpa using h k inst old h1 h2 h3
  simp [MutateComputeLocationApply, hc]

/-- C6 witness: a trace with exactly one SampleComputeLocation
instruction whose current decision is the only legal location, and a
trace with no SampleComputeLocation instruction at all, both yield no
mutation. -/
theorem mutateComputeLocation_no_mutation_witness :
    (MutateComputeLocationApply (fun _ => [2])
      ⟨[⟨"SampleComputeLocation", some 2, false⟩]⟩ 0).1 = none
  ∧ (MutateComputeLocationApply (fun _ => [0, 1])
      ⟨[⟨"GetBlock", none, false⟩]⟩ 3).1 = none := by
  constructor
  · refine mutateComputeLocation_no_mutation (fun _ => [2]) _ 0 ?_
    intro i inst old h1 h2 h3
    cases i with
    | zero =>
      rw [List.get?_cons_zero] at h1
      injection h1 with h1
      rw [← h1] at h3
      injection h3 with h3
      rw [← h3]
      decide
    | succ k => simp at h1
  · refine mutateComputeLocation_no_mutation (fun _ => [0, 1]) _ 3 ?_
    intro i inst old h1 h2 h3
    cases i with
    | zero =>
      rw [List.get?_cons_zero] at h1
      injection h1 with h1
      rw [← h1] at h2
      exact absurd h2 (by decide)
    | succ k => simp at h1

/-- C7: whenever MutateComputeLocation::Apply returns a trace, that
trace is WithDecision(input, i, d, removePostproc = true) for some
SampleComputeLocation instruction at position i of the input trace and
some decision d belonging to the legal compute-at set recomputed by
the oracle for that instruction with the current decision erased; in
particular d is in the recomputed legal set and, when that set has no
duplicates, d differs from the recorded decision. -/
theorem mutateComputeLocation_apply_shape (oracle : Nat → List Int) (t : Trace)
    (s : TRandState) (t' : Trace)
    (h : (MutateComputeLocationApply oracle t s).1 = some t') :
    ∃ i inst old d, t.insts.get? i = some inst ∧
      inst.kind = "SampleComputeLocation" ∧ inst.decision = some old ∧
      d ∈ eraseDecision (oracle i) old ∧ d ∈ oracle i ∧
      ((oracle i).Nodup → d ≠ old) ∧
      t' = t.withDecision i d true := by
  cases hc : FindCandidates oracle t with
  | nil => simp [MutateComputeLocationApply, hc] at h
  | cons c0 cs =>
    simp only [MutateComputeLocationApply, hc] at h
    set s1 : TRandState := (forkSeed s).2 with hs1
    set i1 : Nat := (sampleInt s1 0 (c0 :: cs).length).1 with hi1
    set c : Candidate := (c0 :: cs).getD i1 c0 with hcdef
    set s2 : TRandState := (sampleInt s1 0 (c0 :: cs).length).2 with hs2
    set j1 : Nat := (sampleInt s2 0 c.locs.length).1 with hj1
    set loc : Int := c.locs.getD j1 0 with hloc
    have ht' : t' = t.withDecision c.idx loc true := by
      simpa using h.symm
    have hcmem : c ∈ FindCandidates oracle t := by
      rw [hc, hcdef]
      rcases getD_mem_or_eq (c0 :: cs) i1 c0 with hm | he
      · exact hm
      · rw [he]; exact List.mem_cons_self c0 cs
    obtain ⟨k, inst, old, hget, hidx, hkind, hdec, hlocs, hlne⟩ :=
      findCandidatesAux_sound oracle t.insts 0 c hcmem
    have hidx0 : c.idx = k := by omega
    have hlen : 0 < c.locs.length := List.length_pos.mpr hlne
    have hjlt : j1 < c.locs.length := by
      rw [hj1]
      simpa [sampleInt] using Nat.mod_lt s2 hlen
    have hlocmem : loc ∈ c.locs := by
      rw [hloc]
      exact getD_mem_of_lt c.locs j1 0 hjlt
    have hloc_er : loc ∈ eraseDecision (oracle c.idx) old := hlocs ▸ hlocmem
    refine ⟨c.idx, inst, old, loc, ?_, hkind, hdec, hloc_er, ?_, ?_, ht'⟩
    · rw [hidx0]; exact hget
    · exact mem_eraseDecision (oracle c.idx) old loc hloc_er
    · exact fun hnd => eraseDecision_nodup_ne (oracle c.idx) old loc hnd hloc_er

/-- C7 witness: a one-instruction trace whose SampleComputeLocation
decision 0 can move to the only alternative 1 is mutated to
WithDecision at the alternative. -/
theorem mutateComputeLocation_apply_shape_witness :
    ∃ i inst old d,
      (⟨[⟨"SampleComputeLocation", some 0, false⟩]⟩ : Trace).insts.get? i = some inst ∧
      inst.kind = "SampleComputeLocation" ∧ inst.decision = some old ∧
      d ∈ eraseDecision ((fun (_ : Nat) => ([0, 1] : List Int)) i) old ∧
      d ∈ (fun (_ : Nat) => ([0, 1] : List Int)) i ∧
      (((fun (_ : Nat) => ([0, 1] : List Int)) i).Nodup → d ≠ old) ∧
      (⟨[⟨"SampleComputeLocation", some 1, false⟩]⟩ : Trace) =
        Trace.withDecision ⟨[⟨"SampleComputeLocation", some 0, false⟩]⟩ i d true :=
  mutateComputeLocation_apply_shape (fun _ => [0, 1])
    ⟨[⟨"SampleComputeLocation", some 0, false⟩]⟩ 0
    ⟨[⟨"SampleComputeLocation", some 1, false⟩]⟩ (by decide)

/-- C8: MutateComputeLocation::Apply is deterministic in its explicit
inputs: on the embedding every randomness source is the passed-in
random state, so two invocations with the same trace and equal random
states return the same result, both the proposed trace (or no
mutation) and the advanced state. -/
theorem mutateComputeLocation_deterministic (oracle : Nat → List Int) (t : Trace)
    (s1 s2 : TRandState) (h : s1 = s2) :
    MutateComputeLocationApply oracle t s1 = MutateComputeLocationApply oracle t s2 := by
  rw [h]

/-- C8 witness: two invocations on the empty trace with equal states. -/
theorem mutateComputeLocation_deterministic_witness :
    MutateComputeLocationApply (fun _ => [3]) { insts := [] } 0 =
      MutateComputeLocationApply (fun _ => [3]) { insts := [] } 0 :=
  mutateComputeLocation_deterministic (fun _ => [3]) { insts := [] } 0 0 rfl

lemma removeBuildArtifactApply_append (l1 l2 : List BuilderResult) :
    RemoveBuildArtifactApply (l1 ++ l2) =
      RemoveBuildArtifactApply l1 ++ RemoveBuildArtifactApply l2 := by
  induction l1 with
  | nil => rfl
  | cons r rest ih =>
    cases hp : r.artifact_path with
    | some p => simp [RemoveBuildArtifactApply, hp, ih]
    | none => simp [RemoveBuildArtifactApply, hp, ih]

/-- C9: the artifact-cleanup callback invokes the external removal
capability exactly once, with that path, for each builder result whose
artifact_path is defined, and not at all for a result whose
artifact_path is undefined (an error-carrying result); an
error-carrying result does not stop the processing of the remaining
results of the round. -/
theorem removeBuildArtifact_calls (l1 l2 : List BuilderResult) (r : BuilderResult) :
    (∀ p, r.artifact_path = some p →
      RemoveBuildArtifactApply (l1 ++ r :: l2) =
        RemoveBuildArtifactApply l1 ++ p :: RemoveBuildArtifactApply l2)
  ∧ (r.artifact_path = none →
      RemoveBuildArtifactApply (l1 ++ r :: l2) =
        RemoveBuildArtifactApply l1 ++ RemoveBuildArtifactApply l2) := by
  constructor
  · intro p hp
    rw [removeBuildArtifactApply_append]
    simp [RemoveBuildArtifactApply, hp]
  · intro hp
    rw [removeBuildArtifactApply_append]
    simp [RemoveBuildArtifactApply, hp]

/-- C9 witness: a defined artifact path surrounded by other results
contributes exactly one removal call with that path; an error-carrying
result between two others contributes none and does not stop the
round. -/
theorem removeBuildArtifact_calls_witness :
    (RemoveBuildArtifactApply
        ([⟨none, some "err"⟩] ++ ⟨some "pathA", none⟩ :: [⟨some "pathB", none⟩]) =
      RemoveBuildArtifactApply [⟨none, some "err"⟩] ++ "pathA" ::
        RemoveBuildArtifactApply [⟨some "pathB", none⟩])
  ∧ (RemoveBuildArtifactApply
        ([⟨some "pathA", none⟩] ++ ⟨none, some "e"⟩ :: [⟨some "pathB", none⟩]) =
      RemoveBuildArtifactApply [⟨some "pathA", none⟩] ++
        RemoveBuildArtifactApply [⟨some "pathB", none⟩]) :=
  ⟨(removeBuildArtifact_calls [⟨none, some "err"⟩] [⟨some "pathB", none⟩]
      ⟨some "pathA", none⟩).1 "pathA" rfl,
   (removeBuildArtifact_calls [⟨some "pathA", none⟩] [⟨some "pathB", none⟩]
      ⟨none, some "e"⟩).2 rfl⟩

end TvmMeta
